import Mathlib

/-!
Verification of the provenance-capture core of `elephant/buffalo/provenance.py`.

The development is a shallow embedding of the module: Python values become an
inductive `Value`, the process-wide class state of `Provenance` becomes the
record `ProvState`, and the decorator body `wrapped` becomes an explicit
state-passing function returning `Except PyError Value × ProvState`.
Collaborator modules that are not part of the inspected source
(`object_hash.py`, `code_lines.py`, `ast_analysis.py`, `graph.py`) are
modelled from the specification at their interface, as noted on each
definition.
-/

/-- Python runtime values, as far as the provenance machinery observes them:
the interceptor only distinguishes tuples from everything else, and the
registry only needs a content hash and equality. -/
inductive Value where
  | int (n : Int)
  | str (s : String)
  | tuple (xs : List Value)
  | pylist (xs : List Value)
  | pyNone

mutual

/-- Decidable equality on `Value` (spelled out because automatic derivation
does not handle the nested `List Value`). -/
def Value.decEq : (a b : Value) → Decidable (a = b)
  | Value.int m, Value.int n =>
    match decEq m n with
    | isTrue h => isTrue (by rw [h])
    | isFalse h => isFalse (by intro hc; injection hc with h1; exact h h1)
  | Value.str s, Value.str t =>
    match decEq s t with
    | isTrue h => isTrue (by rw [h])
    | isFalse h => isFalse (by intro hc; injection hc with h1; exact h h1)
  | Value.tuple xs, Value.tuple ys =>
    match valueListDecEq xs ys with
    | isTrue h => isTrue (by rw [h])
    | isFalse h => isFalse (by intro hc; injection hc with h1; exact h h1)
  | Value.pylist xs, Value.pylist ys =>
    match valueListDecEq xs ys with
    | isTrue h => isTrue (by rw [h])
    | isFalse h => isFalse (by intro hc; injection hc with h1; exact h h1)
  | Value.pyNone, Value.pyNone => isTrue rfl
  | Value.int _, Value.str _ => isFalse (fun h => Value.noConfusion h)
  | Value.int _, Value.tuple _ => isFalse (fun h => Value.noConfusion h)
  | Value.int _, Value.pylist _ => isFalse (fun h => Value.noConfusion h)
  | Value.int _, Value.pyNone => isFalse (fun h => Value.noConfusion h)
  | Value.str _, Value.int _ => isFalse (fun h => Value.noConfusion h)
  | Value.str _, Value.tuple _ => isFalse (fun h => Value.noConfusion h)
  | Value.str _, Value.pylist _ => isFalse (fun h => Value.noConfusion h)
  | Value.str _, Value.pyNone => isFalse (fun h => Value.noConfusion h)
  | Value.tuple _, Value.int _ => isFalse (fun h => Value.noConfusion h)
  | Value.tuple _, Value.str _ => isFalse (fun h => Value.noConfusion h)
  | Value.tuple _, Value.pylist _ => isFalse (fun h => Value.noConfusion h)
  | Value.tuple _, Value.pyNone => isFalse (fun h => Value.noConfusion h)
  | Value.pylist _, Value.int _ => isFalse (fun h => Value.noConfusion h)
  | Value.pylist _, Value.str _ => isFalse (fun h => Value.noConfusion h)
  | Value.pylist _, Value.tuple _ => isFalse (fun h => Value.noConfusion h)
  | Value.pylist _, Value.pyNone => isFalse (fun h => Value.noConfusion h)
  | Value.pyNone, Value.int _ => isFalse (fun h => Value.noConfusion h)
  | Value.pyNone, Value.str _ => isFalse (fun h => Value.noConfusion h)
  | Value.pyNone, Value.tuple _ => isFalse (fun h => Value.noConfusion h)
  | Value.pyNone, Value.pylist _ => isFalse (fun h => Value.noConfusion h)

/-- Decidable equality on lists of `Value` (helper for `Value.decEq`). -/
def valueListDecEq : (xs ys : List Value) → Decidable (xs = ys)
  | [], [] => isTrue rfl
  | [], _ :: _ => isFalse (fun h => List.noConfusion h)
  | _ :: _, [] => isFalse (fun h => List.noConfusion h)
  | x :: xs, y :: ys =>
    match Value.decEq x y, valueListDecEq xs ys with
    | isTrue h1, isTrue h2 => isTrue (by rw [h1, h2])
    | isFalse h1, _ => isFalse (by intro hc; injection hc with hh ht; exact h1 hh)
    | isTrue _, isFalse h2 => isFalse (by intro hc; injection hc with hh ht; exact h2 ht)

end

instance : DecidableEq Value := Value.decEq

/-- Encoding of an `Int` as a `Nat`, used by the content hash. -/
def intCode (n : Int) : Nat :=
  if 0 ≤ n then 2 * n.toNat else 2 * (-n).toNat + 1

/-- Encoding of a `String` as a `Nat`, used by the content hash. -/
def strCode (s : String) : Nat :=
  s.data.foldl (fun a c => Nat.pair a c.toNat) 0

mutual

/-- Modelled from the spec: `object_hash.py` is not part of the inspected
source. The spec requires a content hash that is "deterministic for
equal-by-value inputs"; we use a structural encoding via `Nat.pair`. -/
def Value.contentHash : Value → Nat
  | Value.int n => Nat.pair 0 (intCode n)
  | Value.str s => Nat.pair 1 (strCode s)
  | Value.tuple xs => Nat.pair 2 (valueListHash xs)
  | Value.pylist xs => Nat.pair 3 (valueListHash xs)
  | Value.pyNone => 4

/-- Content hash of a list of values (helper for `Value.contentHash`). -/
def valueListHash : List Value → Nat
  | [] => 0
  | v :: vs => Nat.pair (Value.contentHash v) (valueListHash vs) + 1

end

/-- `isinstance(x, tuple)`: the only runtime-type test the interceptor does
on a return value. -/
def Value.isTuple : Value → Bool
  | Value.tuple _ => true
  | _ => false

/-- Modelled from the spec: `BuffaloObjectHash` (from the missing
`object_hash.py`) is an object identity {content-hash, reference to the
underlying value}; equality and dict-keying are by the content hash. -/
structure BuffaloObjectHash where
  hash : Nat
  value : Value
deriving DecidableEq

/-- The class attribute `Provenance.objects`: a dictionary keyed by the
content hash of each registered object (the spec calls it a "hash-keyed
set"). We model the dict as an association list in insertion order. -/
abbrev Registry := List (Nat × BuffaloObjectHash)

/-- Dict lookup by content hash (`object_hash in cls.objects` /
`cls.objects[object_hash]`). -/
def Registry.findByHash (r : Registry) (h : Nat) : Option BuffaloObjectHash :=
  match r with
  | [] => Option.none
  | p :: rest => if p.1 = h then Option.some p.2 else Registry.findByHash rest h

/-- Well-formedness of the registry: every stored identity is keyed by its
own hash. `Provenance.add` only ever stores such entries. -/
def Registry.WF (r : Registry) : Prop :=
  ∀ p ∈ r, p.2.hash = p.1

instance (r : Registry) : Decidable (Registry.WF r) :=
  List.decidableBAll _ r

/-- `Provenance.add` (provenance.py lines 296-316): hash the object; if the
hash is new, store a fresh identity; return the canonical identity stored
under that hash. -/
def Provenance.add (r : Registry) (obj : Value) : BuffaloObjectHash × Registry :=
  match Registry.findByHash r obj.contentHash with
  | Option.some existing => (existing, r)
  | Option.none =>
      (⟨obj.contentHash, obj⟩, r ++ [(obj.contentHash, ⟨obj.contentHash, obj⟩)])

theorem findByHash_append_of_none (r₁ r₂ : Registry) (h : Nat)
    (hn : Registry.findByHash r₁ h = Option.none) :
    Registry.findByHash (r₁ ++ r₂) h = Registry.findByHash r₂ h := by
  induction r₁ with
  | nil => rfl
  | cons p rest ih =>
    by_cases hp : p.1 = h
    · simp [Registry.findByHash, hp] at hn
    · simp only [Registry.findByHash, hp, if_false] at hn
      simp only [List.cons_append, Registry.findByHash, hp, if_false]
      exact ih hn

theorem findByHash_none_not_mem (r : Registry) (h : Nat)
    (hn : Registry.findByHash r h = Option.none) :
    ∀ p ∈ r, p.1 ≠ h := by
  induction r with
  | nil => intro p hp; cases hp
  | cons q rest ih =>
    intro p hp
    by_cases hq : q.1 = h
    · simp [Registry.findByHash, hq] at hn
    · simp only [Registry.findByHash, hq, if_false] at hn
      rcases List.mem_cons.mp hp with hpq | hpr
      · rw [hpq]; exact hq
      · exact ih hn p hpr

theorem findByHash_mem (r : Registry) (h : Nat) (oh : BuffaloObjectHash)
    (hf : Registry.findByHash r h = Option.some oh) : (h, oh) ∈ r := by
  induction r with
  | nil => simp [Registry.findByHash] at hf
  | cons q rest ih =>
    by_cases hq : q.1 = h
    · simp only [Registry.findByHash, hq, if_true, Option.some.injEq] at hf
      exact List.mem_cons.mpr (Or.inl (by rw [← hf, ← hq]))
    · simp only [Registry.findByHash, hq, if_false] at hf
      exact List.mem_cons.mpr (Or.inr (ih hf))

theorem add_extends (r : Registry) (v : Value) :
    ∃ ext, (Provenance.add r v).2 = r ++ ext := by
  cases hf : Registry.findByHash r v.contentHash with
  | none => exact ⟨[(v.contentHash, ⟨v.contentHash, v⟩)], by simp [Provenance.add, hf]⟩
  | some existing => exact ⟨[], by simp [Provenance.add, hf]⟩

theorem add_WF (r : Registry) (v : Value) (hwf : Registry.WF r) :
    Registry.WF (Provenance.add r v).2 := by
  cases hf : Registry.findByHash r v.contentHash with
  | none =>
    simp only [Provenance.add, hf]
    intro p hp
    rcases List.mem_append.mp hp with hl | hr
    · exact hwf p hl
    · simp at hr; rw [hr]
  | some existing => simpa only [Provenance.add, hf] using hwf

theorem add_hash_of_WF (r : Registry) (v : Value) (hwf : Registry.WF r) :
    (Provenance.add r v).1.hash = v.contentHash := by
  cases hf : Registry.findByHash r v.contentHash with
  | none => simp [Provenance.add, hf]
  | some existing =>
    simp only [Provenance.add, hf]
    exact hwf (v.contentHash, existing) (findByHash_mem r v.contentHash existing hf)

/-- A Python exception, identified by its rendered message. -/
structure PyError where
  msg : String
deriving DecidableEq

/-- The result of `ast.parse(source_line)`. The claims under verification
only need the tree as an opaque token carrying its source text, so we model
it as that text. -/
structure Ast where
  source : String
deriving DecidableEq

/-- The namedtuple `FunctionDefinition` (provenance.py lines 41-43). -/
structure FunctionDefinition where
  name : String
  module : String
  version : Option String
deriving DecidableEq

/-- The namedtuple `AnalysisStep` (provenance.py lines 31-38). Python dicts
are modelled as association lists in insertion order. -/
structure AnalysisStep where
  function : FunctionDefinition
  input : List (String × BuffaloObjectHash)
  params : List (String × Value)
  output : List (Nat × BuffaloObjectHash)
  arg_map : List String
  kwarg_map : List String
  call_ast : Ast
  code_statement : String
deriving DecidableEq

/-- What `inspect.getframeinfo`/`frame.f_lineno` yield for one stack frame:
its source file, the name of the function executing in it, and the current
line number. -/
structure FrameInfo where
  filename : String
  function : String
  f_lineno : Nat
deriving DecidableEq

/-- The fallible source-introspection collaborators used inside `wrapped`:
`extract_multiline_statement` is the `SourceCodeAnalyzer` method (from the
missing `code_lines.py`, modelled from the spec as a fallible resolver from
a line number to the full statement text), and `parse` is `ast.parse`. -/
structure Env where
  extract_multiline_statement : Nat → Except PyError String
  parse : String → Except PyError Ast

/-- A wrapped-candidate Python function: its identity metadata
(`__name__`, `__module__`, `__doc__`), its declared parameter names
(`signature(function).parameters.keys()`), and its behaviour as a fallible
map from positional and keyword arguments to a value. -/
structure PyFunction where
  name : String
  module : String
  doc : Option String
  paramNames : List String
  call : List Value → List (String × Value) → Except PyError Value

/-- The process-wide class state of `Provenance` (provenance.py lines
97-107): the activation flag, the bound tracked script (file, enclosing
function name, starting line), the history log and the object registry. -/
structure ProvState where
  active : Bool
  sourceFile : String
  sourceName : String
  sourceLineno : Nat
  history : List AnalysisStep
  objects : Registry
deriving DecidableEq

/-- Python dict insertion: overwrite in place if the key exists, else append
(used to build `input_data` at provenance.py lines 187-200). -/
def dictInsert (d : List (String × Value)) (k : String) (v : Value) :
    List (String × Value) :=
  if d.any (fun p => p.1 = k) then
    d.map (fun p => if p.1 = k then (k, v) else p)
  else d ++ [(k, v)]

/-- `input_data` (provenance.py lines 187-200): positional arguments bound
to their declared parameter names in order, then keyword arguments inserted
in order. -/
def buildInputData (f : PyFunction) (args : List Value)
    (kwargs : List (String × Value)) : List (String × Value) :=
  kwargs.foldl (fun d kv => dictInsert d kv.1 kv.2) (f.paramNames.zip args)

/-- The loop at provenance.py lines 209-215: partition `input_data` into
tracked inputs (names in `self.inputs`, registered in the object registry)
and plain parameters (kept as raw values). -/
def registerInputs (selfInputs : List String) :
    List (String × Value) → Registry →
      List (String × BuffaloObjectHash) × List (String × Value) × Registry
  | [], r => ([], [], r)
  | kv :: rest, r =>
    if kv.1 ∈ selfInputs then
      ((kv.1, (Provenance.add r kv.2).1) ::
          (registerInputs selfInputs rest (Provenance.add r kv.2).2).1,
       (registerInputs selfInputs rest (Provenance.add r kv.2).2).2.1,
       (registerInputs selfInputs rest (Provenance.add r kv.2).2).2.2)
    else
      ((registerInputs selfInputs rest r).1,
       kv :: (registerInputs selfInputs rest r).2.1,
       (registerInputs selfInputs rest r).2.2)

/-- The loop at provenance.py lines 221-222: register each tuple element
under its positional index, starting at `start`. -/
def registerOutputList (r : Registry) (start : Nat) :
    List Value → List (Nat × BuffaloObjectHash) × Registry
  | [] => ([], r)
  | v :: vs =>
    ((start, (Provenance.add r v).1) ::
        (registerOutputList (Provenance.add r v).2 (start + 1) vs).1,
     (registerOutputList (Provenance.add r v).2 (start + 1) vs).2)

/-- Output registration (provenance.py lines 219-224): a `tuple` return is
registered element-wise under positional indices; any other return value is
registered as a single identity under index 0. -/
def registerOutputs (r : Registry) : Value → List (Nat × BuffaloObjectHash) × Registry
  | Value.tuple xs => registerOutputList r 0 xs
  | v => ([(0, (Provenance.add r v).1)], (Provenance.add r v).2)

/-- The `while function_name == '<listcomp>'` walk (provenance.py lines
147-151): starting at the immediate caller, step outward past
list-comprehension frames until a named frame is found; `Option.none`
models running out of frames (`frame.f_back is None`, on which
`inspect.getframeinfo` raises). -/
def findNamedFrame : List FrameInfo → Option FrameInfo
  | [] => Option.none
  | fr :: rest =>
    if fr.function = "<listcomp>" then findNamedFrame rest else Option.some fr

/-- The scope check at provenance.py lines 141-158: when tracking is active,
resolve the calling line number; it is `some` exactly when the (walked-to)
calling frame matches the bound tracked script. An exhausted frame chain is
the error case of the frame introspection. -/
def resolveCallerLineno (st : ProvState) (frames : List FrameInfo) :
    Except PyError (Option Nat) :=
  if st.active then
    match findNamedFrame frames with
    | Option.none => Except.error ⟨"TypeError: frame is not a frame object"⟩
    | Option.some fr =>
      Except.ok (if fr.filename = st.sourceFile ∧ fr.function = st.sourceName
                 then Option.some fr.f_lineno else Option.none)
  else Except.ok Option.none

/-- The recording block of `wrapped` (provenance.py lines 163-239), entered
with the resolved calling line number and the function's own output.
`_insert_static_information` (the missing `ast_analysis.py`) is modelled
from the spec as best-effort static-link extraction with no effect on the
state verified here. Any exception raised while resolving or parsing the
source statement propagates: the source has no handler around this block. -/
def recordStep (env : Env) (selfInputs : List String) (f : PyFunction)
    (args : List Value) (kwargs : List (String × Value)) (st : ProvState)
    (lineno : Nat) (function_output : Value) : Except PyError Value × ProvState :=
  match env.extract_multiline_statement lineno with
  | Except.error e => (Except.error e, st)
  | Except.ok source_line =>
    match env.parse source_line with
    | Except.error e => (Except.error e, st)
    | Except.ok ast_tree =>
      if f.paramNames.length < args.length then
        (Except.error ⟨"IndexError: tuple index out of range"⟩, st)
      else
        (Except.ok function_output,
         { st with
            history := st.history ++
              [{ function := ⟨f.name, f.module, Option.none⟩
                 input := (registerInputs selfInputs
                   (buildInputData f args kwargs) st.objects).1
                 params := (registerInputs selfInputs
                   (buildInputData f args kwargs) st.objects).2.1
                 output := (registerOutputs (registerInputs selfInputs
                   (buildInputData f args kwargs) st.objects).2.2 function_output).1
                 arg_map := (f.paramNames.zip args).map Prod.fst
                 kwarg_map := kwargs.map Prod.fst
                 call_ast := ast_tree
                 code_statement := source_line }]
            objects := (registerOutputs (registerInputs selfInputs
              (buildInputData f args kwargs) st.objects).2.2 function_output).2 })

/-- The decorator body `wrapped` (provenance.py lines 131-243): resolve the
caller's line number when tracking is active, execute the wrapped function,
and record an `AnalysisStep` when the call is in scope. Exceptions of the
wrapped function itself, and of the provenance machinery, propagate as the
`Except.error` component. -/
def wrapped (env : Env) (selfInputs : List String) (f : PyFunction)
    (frames : List FrameInfo) (args : List Value)
    (kwargs : List (String × Value)) (st : ProvState) :
    Except PyError Value × ProvState :=
  match resolveCallerLineno st frames with
  | Except.error e => (Except.error e, st)
  | Except.ok lineno =>
    match f.call args kwargs with
    | Except.error e => (Except.error e, st)
    | Except.ok function_output =>
      match lineno with
      | Option.none => (Except.ok function_output, st)
      | Option.some l =>
        if st.active then
          recordStep env selfInputs f args kwargs st l function_output
        else (Except.ok function_output, st)

/-- The callable returned by the decorator: `functools.wraps` copies the
wrapped function's identity metadata onto it, and its behaviour is
`wrapped`. -/
structure WrappedCallable where
  name : String
  module : String
  doc : Option String
  run : Env → List FrameInfo → List Value → List (String × Value) →
    ProvState → Except PyError Value × ProvState

/-- `Provenance.__call__` (provenance.py lines 128-243): decorate `f`,
producing a transparent wrapper whose metadata is copied from `f` by
`@wraps(function)`. -/
def Provenance.call (selfInputs : List String) (f : PyFunction) : WrappedCallable :=
  { name := f.name
    module := f.module
    doc := f.doc
    run := fun env frames args kwargs st => wrapped env selfInputs f frames args kwargs st }

/-- The frame captured by `activate()` as the tracked script. -/
structure CallerFrame where
  filename : String
  funcname : String
  lineno : Nat
deriving DecidableEq

/-- `Provenance.set_calling_frame` (provenance.py lines 245-260), restricted
to the state the claims observe: bind the tracked script's file, enclosing
function name and starting line (1 for module scope). -/
def set_calling_frame (st : ProvState) (frame : CallerFrame) : ProvState :=
  { st with
      sourceFile := frame.filename
      sourceName := frame.funcname
      sourceLineno := if frame.funcname = "<module>" then 1 else frame.lineno }

/-- `activate()` (provenance.py lines 346-354): rebind the tracked script
and raise the flag. History and registry are untouched. -/
def activate (st : ProvState) (frame : CallerFrame) : ProvState :=
  { set_calling_frame st frame with active := true }

/-- `deactivate()` (provenance.py lines 357-361): lower the flag. History
and registry are untouched. -/
def deactivate (st : ProvState) : ProvState :=
  { st with active := false }

/-- One state-changing operation of a tracking session: a call to a wrapped
function, (re)activation, deactivation, or a direct registration via
`Provenance.add`. -/
inductive SessionOp where
  | callWrapped (env : Env) (selfInputs : List String) (f : PyFunction)
      (frames : List FrameInfo) (args : List Value)
      (kwargs : List (String × Value))
  | doActivate (frame : CallerFrame)
  | doDeactivate
  | doAdd (v : Value)

/-- The state transition of each session operation. -/
def SessionOp.apply (op : SessionOp) (st : ProvState) : ProvState :=
  match op with
  | SessionOp.callWrapped env selfInputs f frames args kwargs =>
      (wrapped env selfInputs f frames args kwargs st).2
  | SessionOp.doActivate frame => activate st frame
  | SessionOp.doDeactivate => deactivate st
  | SessionOp.doAdd v => { st with objects := (Provenance.add st.objects v).2 }

/-! ### Registry monotonicity -/

theorem registerInputs_cons_pos (selfInputs : List String)
    (kv : String × Value) (rest : List (String × Value)) (r : Registry)
    (hk : kv.1 ∈ selfInputs) :
    registerInputs selfInputs (kv :: rest) r =
      ((kv.1, (Provenance.add r kv.2).1) ::
          (registerInputs selfInputs rest (Provenance.add r kv.2).2).1,
       (registerInputs selfInputs rest (Provenance.add r kv.2).2).2.1,
       (registerInputs selfInputs rest (Provenance.add r kv.2).2).2.2) := by
  simp [registerInputs, hk]

theorem registerInputs_cons_neg (selfInputs : List String)
    (kv : String × Value) (rest : List (String × Value)) (r : Registry)
    (hk : kv.1 ∉ selfInputs) :
    registerInputs selfInputs (kv :: rest) r =
      ((registerInputs selfInputs rest r).1,
       kv :: (registerInputs selfInputs rest r).2.1,
       (registerInputs selfInputs rest r).2.2) := by
  simp [registerInputs, hk]

theorem registerInputs_extends (selfInputs : List String)
    (d : List (String × Value)) :
    ∀ r : Registry, ∃ ext, (registerInputs selfInputs d r).2.2 = r ++ ext := by
  induction d with
  | nil => intro r; exact ⟨[], by simp [registerInputs]⟩
  | cons kv rest ih =>
    intro r
    by_cases hk : kv.1 ∈ selfInputs
    · obtain ⟨e₁, he₁⟩ := add_extends r kv.2
      obtain ⟨e₂, he₂⟩ := ih (Provenance.add r kv.2).2
      refine ⟨e₁ ++ e₂, ?_⟩
      rw [registerInputs_cons_pos selfInputs kv rest r hk]
      show (registerInputs selfInputs rest (Provenance.add r kv.2).2).2.2 =
        r ++ (e₁ ++ e₂)
      rw [he₂, he₁, List.append_assoc]
    · obtain ⟨e, he⟩ := ih r
      refine ⟨e, ?_⟩
      rw [registerInputs_cons_neg selfInputs kv rest r hk]
      exact he

theorem registerOutputList_extends (xs : List Value) :
    ∀ (r : Registry) (start : Nat),
      ∃ ext, (registerOutputList r start xs).2 = r ++ ext := by
  induction xs with
  | nil => intro r start; exact ⟨[], by simp [registerOutputList]⟩
  | cons v vs ih =>
    intro r start
    obtain ⟨e₁, he₁⟩ := add_extends r v
    obtain ⟨e₂, he₂⟩ := ih (Provenance.add r v).2 (start + 1)
    refine ⟨e₁ ++ e₂, ?_⟩
    show (registerOutputList (Provenance.add r v).2 (start + 1) vs).2 =
      r ++ (e₁ ++ e₂)
    rw [he₂, he₁, List.append_assoc]

theorem registerOutputs_extends (r : Registry) (v : Value) :
    ∃ ext, (registerOutputs r v).2 = r ++ ext := by
  cases v with
  | tuple xs => exact registerOutputList_extends xs r 0
  | int n => exact add_extends r (Value.int n)
  | str s => exact add_extends r (Value.str s)
  | pylist xs => exact add_extends r (Value.pylist xs)
  | pyNone => exact add_extends r Value.pyNone

theorem recordStep_extends (env : Env) (selfInputs : List String)
    (f : PyFunction) (args : List Value) (kwargs : List (String × Value))
    (st : ProvState) (lineno : Nat) (out : Value) :
    ∃ ext, (recordStep env selfInputs f args kwargs st lineno out).2.objects =
      st.objects ++ ext := by
  cases hsrc : env.extract_multiline_statement lineno with
  | error e => exact ⟨[], by simp [recordStep, hsrc]⟩
  | ok source_line =>
    cases hast : env.parse source_line with
    | error e => exact ⟨[], by simp [recordStep, hsrc, hast]⟩
    | ok tree =>
      by_cases hlen : f.paramNames.length < args.length
      · exact ⟨[], by simp [recordStep, hsrc, hast, hlen]⟩
      · obtain ⟨e₁, he₁⟩ := registerInputs_extends selfInputs
          (buildInputData f args kwargs) st.objects
        obtain ⟨e₂, he₂⟩ := registerOutputs_extends
          (registerInputs selfInputs (buildInputData f args kwargs) st.objects).2.2 out
        refine ⟨e₁ ++ e₂, ?_⟩
        simp only [recordStep, hsrc, hast, if_neg hlen]
        show (registerOutputs (registerInputs selfInputs
          (buildInputData f args kwargs) st.objects).2.2 out).2 =
            st.objects ++ (e₁ ++ e₂)
        rw [he₂, he₁, List.append_assoc]

theorem wrapped_extends (env : Env) (selfInputs : List String) (f : PyFunction)
    (frames : List FrameInfo) (args : List Value)
    (kwargs : List (String × Value)) (st : ProvState) :
    ∃ ext, (wrapped env selfInputs f frames args kwargs st).2.objects =
      st.objects ++ ext := by
  unfold wrapped
  cases hres : resolveCallerLineno st frames with
  | error e => exact ⟨[], by simp⟩
  | ok lineno =>
    cases hc : f.call args kwargs with
    | error e => exact ⟨[], by simp⟩
    | ok out =>
      cases lineno with
      | none => exact ⟨[], by simp⟩
      | some l =>
        by_cases hact : st.active
        · obtain ⟨e, he⟩ := recordStep_extends env selfInputs f args kwargs st l out
          exact ⟨e, by simp [hact, he]⟩
        · exact ⟨[], by simp [hact]⟩

/-! ### Behaviour of `wrapped` on the skip paths -/

theorem wrapped_inactive_eq (env : Env) (selfInputs : List String)
    (f : PyFunction) (frames : List FrameInfo) (args : List Value)
    (kwargs : List (String × Value)) (st : ProvState)
    (h : st.active = false) :
    wrapped env selfInputs f frames args kwargs st = (f.call args kwargs, st) := by
  have hres : resolveCallerLineno st frames = Except.ok Option.none := by
    simp [resolveCallerLineno, h]
  unfold wrapped
  rw [hres]
  cases hc : f.call args kwargs with
  | error e => rfl
  | ok v => rfl

theorem wrapped_out_of_scope_eq (env : Env) (selfInputs : List String)
    (f : PyFunction) (frames : List FrameInfo) (args : List Value)
    (kwargs : List (String × Value)) (st : ProvState) (fr : FrameInfo)
    (hact : st.active = true)
    (hfr : findNamedFrame frames = Option.some fr)
    (hmm : ¬(fr.filename = st.sourceFile ∧ fr.function = st.sourceName)) :
    wrapped env selfInputs f frames args kwargs st = (f.call args kwargs, st) := by
  have hres : resolveCallerLineno st frames = Except.ok Option.none := by
    simp [resolveCallerLineno, hact, hfr, hmm]
  unfold wrapped
  rw [hres]
  cases hc : f.call args kwargs with
  | error e => rfl
  | ok v => rfl

/-! ### Sample data used by the witnesses -/

/-- A source environment in which resolution always succeeds. -/
def envOk : Env :=
  ⟨fun _ => Except.ok "psd = compute(data)", fun s => Except.ok ⟨s⟩⟩

/-- A source environment in which statement resolution raises (source file
unavailable). -/
def envFail : Env :=
  ⟨fun _ => Except.error ⟨"OSError: could not get source code"⟩,
   fun s => Except.ok ⟨s⟩⟩

/-- A sample tracked function: returns the tuple of its positional
arguments. -/
def fCompute : PyFunction :=
  { name := "compute"
    module := "elephant.demo"
    doc := Option.some "Return the tuple of the positional arguments."
    paramNames := ["data", "n"]
    call := fun args _ => Except.ok (Value.tuple args) }

/-- A sample tracked function that returns its arguments as a Python list
(a sequence that is not a tuple). -/
def fListify : PyFunction :=
  { name := "listify"
    module := "elephant.demo"
    doc := Option.none
    paramNames := ["data", "n"]
    call := fun args _ => Except.ok (Value.pylist args) }

/-- A sample function that always raises. -/
def fBoom : PyFunction :=
  { name := "boom"
    module := "elephant.demo"
    doc := Option.none
    paramNames := ["data"]
    call := fun _ _ => Except.error ⟨"RuntimeError: boom"⟩ }

/-- Tracking inactive; script bound to `script.py`, module scope. -/
def stInactive : ProvState :=
  ⟨false, "script.py", "<module>", 1, [], []⟩

/-- Tracking active; script bound to `script.py`, module scope. -/
def stActive : ProvState :=
  ⟨true, "script.py", "<module>", 1, [], []⟩

/-- A caller frame matching the bound tracked script. -/
def framesMatch : List FrameInfo := [⟨"script.py", "<module>", 5⟩]

/-- A caller frame not matching the bound tracked script. -/
def framesOther : List FrameInfo := [⟨"other.py", "helper", 3⟩]

/-- A list-comprehension frame on top of the tracked module frame. -/
def framesComp : List FrameInfo :=
  [⟨"script.py", "<listcomp>", 7⟩, ⟨"script.py", "<module>", 7⟩]

/-! ### Claim theorems -/

/-- Claim C2: when the tracking flag is inactive, calling the wrapped
function returns exactly the same value and raises exactly the same error
as calling the unwrapped function, and the state — in particular History —
is unchanged. -/
theorem wrapped_inactive_transparent (env : Env) (selfInputs : List String)
    (f : PyFunction) (frames : List FrameInfo) (args : List Value)
    (kwargs : List (String × Value)) (st : ProvState)
    (h : st.active = false) :
    wrapped env selfInputs f frames args kwargs st = (f.call args kwargs, st) :=
  wrapped_inactive_eq env selfInputs f frames args kwargs st h

theorem wrapped_inactive_transparent_witness :
    stInactive.active = false ∧
    wrapped envOk ["data"] fCompute framesMatch [Value.int 1, Value.int 2] []
        stInactive =
      (fCompute.call [Value.int 1, Value.int 2] [], stInactive) :=
  ⟨rfl, wrapped_inactive_transparent envOk ["data"] fCompute framesMatch
      [Value.int 1, Value.int 2] [] stInactive rfl⟩

/-- Claim C8: an exception raised by the wrapped function itself propagates
unchanged to the caller and no AnalysisStep is appended, whether or not
tracking is active. (When tracking is active the frame walk must reach a
named frame, which in Python always holds: the bottom frame is
`<module>`.) -/
theorem wrapped_propagates_underlying_error (env : Env)
    (selfInputs : List String) (f : PyFunction) (frames : List FrameInfo)
    (args : List Value) (kwargs : List (String × Value)) (st : ProvState)
    (e : PyError) (hf : f.call args kwargs = Except.error e)
    (hfr : st.active = true → (findNamedFrame frames).isSome = true) :
    wrapped env selfInputs f frames args kwargs st = (Except.error e, st) := by
  cases hact : st.active with
  | false =>
    rw [wrapped_inactive_eq env selfInputs f frames args kwargs st hact, hf]
  | true =>
    obtain ⟨fr, hfr'⟩ := Option.isSome_iff_exists.mp (hfr hact)
    have hres : resolveCallerLineno st frames =
        Except.ok (if fr.filename = st.sourceFile ∧ fr.function = st.sourceName
                   then Option.some fr.f_lineno else Option.none) := by
      simp [resolveCallerLineno, hact, hfr']
    unfold wrapped
    rw [hres, hf]

theorem wrapped_propagates_underlying_error_witness :
    fBoom.call [Value.int 1] [] = Except.error ⟨"RuntimeError: boom"⟩ ∧
    wrapped envOk ["data"] fBoom framesMatch [Value.int 1] [] stActive =
      (Except.error ⟨"RuntimeError: boom"⟩, stActive) :=
  ⟨rfl, wrapped_propagates_underlying_error envOk ["data"] fBoom framesMatch
      [Value.int 1] [] stActive ⟨"RuntimeError: boom"⟩ rfl (fun _ => rfl)⟩

/-- Claim C6: a call made while tracking is active but from an execution
context that does not match the bound tracked script is still executed and
its result returned, with no new AnalysisStep (the state is unchanged); and
the scope decision skips list-comprehension frames, walking outward until a
named frame is found. -/
theorem wrapped_scope_filtering :
    (∀ (env : Env) (selfInputs : List String) (f : PyFunction)
        (frames : List FrameInfo) (args : List Value)
        (kwargs : List (String × Value)) (st : ProvState) (fr : FrameInfo),
        st.active = true →
        findNamedFrame frames = Option.some fr →
        ¬(fr.filename = st.sourceFile ∧ fr.function = st.sourceName) →
        wrapped env selfInputs f frames args kwargs st = (f.call args kwargs, st))
    ∧ (∀ (fr : FrameInfo) (rest : List FrameInfo),
        fr.function = "<listcomp>" →
        findNamedFrame (fr :: rest) = findNamedFrame rest) := by
  constructor
  · intro env selfInputs f frames args kwargs st fr hact hfr hmm
    exact wrapped_out_of_scope_eq env selfInputs f frames args kwargs st fr
      hact hfr hmm
  · intro fr rest h
    simp [findNamedFrame, h]

theorem wrapped_scope_filtering_witness :
    (stActive.active = true ∧
      wrapped envOk ["data"] fCompute framesOther [Value.int 1] [] stActive =
        (fCompute.call [Value.int 1] [], stActive))
    ∧ findNamedFrame framesComp = findNamedFrame [⟨"script.py", "<module>", 7⟩] :=
  ⟨⟨rfl, wrapped_scope_filtering.1 envOk ["data"] fCompute framesOther
      [Value.int 1] [] stActive ⟨"other.py", "helper", 3⟩ rfl rfl (by decide)⟩,
   wrapped_scope_filtering.2 ⟨"script.py", "<listcomp>", 7⟩
      [⟨"script.py", "<module>", 7⟩] rfl⟩

/-- Claim C9: a call made while tracking is active but from a context that
does not match the bound tracked script leaves the object identity registry
unchanged: no identities are registered for its arguments or results. -/
theorem wrapped_out_of_scope_registry_unchanged (env : Env)
    (selfInputs : List String) (f : PyFunction) (frames : List FrameInfo)
    (args : List Value) (kwargs : List (String × Value)) (st : ProvState)
    (fr : FrameInfo) (hact : st.active = true)
    (hfr : findNamedFrame frames = Option.some fr)
    (hmm : ¬(fr.filename = st.sourceFile ∧ fr.function = st.sourceName)) :
    ((wrapped env selfInputs f frames args kwargs st).2).objects = st.objects := by
  rw [wrapped_out_of_scope_eq env selfInputs f frames args kwargs st fr
    hact hfr hmm]

theorem wrapped_out_of_scope_registry_unchanged_witness :
    stActive.active = true ∧
    ((wrapped envOk ["data"] fCompute framesOther [Value.int 1] []
        stActive).2).objects = stActive.objects :=
  ⟨rfl, wrapped_out_of_scope_registry_unchanged envOk ["data"] fCompute
      framesOther [Value.int 1] [] stActive ⟨"other.py", "helper", 3⟩
      rfl rfl (by decide)⟩

/-- Claim C4: `Provenance.add` is idempotent and canonical: registering the
same value twice returns the same identity and leaves the registry as after
the first registration; when an identity with the value's content hash is
already stored, that stored identity is returned; and registration
preserves uniqueness of the hash keys (at most one record per distinct
hash). -/
theorem add_idempotent_canonical (r : Registry) (v : Value) :
    (Provenance.add (Provenance.add r v).2 v).1 = (Provenance.add r v).1
    ∧ (Provenance.add (Provenance.add r v).2 v).2 = (Provenance.add r v).2
    ∧ (∀ existing, Registry.findByHash r v.contentHash = Option.some existing →
        (Provenance.add r v).1 = existing)
    ∧ ((r.map Prod.fst).Nodup → (((Provenance.add r v).2).map Prod.fst).Nodup) := by
  cases hf : Registry.findByHash r v.contentHash with
  | some existing =>
    refine ⟨?_, ?_, ?_, ?_⟩
    · simp [Provenance.add, hf]
    · simp [Provenance.add, hf]
    · intro ex hex
      injection hex with h3
      rw [← h3]
      simp [Provenance.add, hf]
    · intro hnd
      simpa [Provenance.add, hf] using hnd
  | none =>
    have h1 : Provenance.add r v =
        (⟨v.contentHash, v⟩, r ++ [(v.contentHash, ⟨v.contentHash, v⟩)]) := by
      simp [Provenance.add, hf]
    have h2 : Registry.findByHash (r ++ [(v.contentHash, ⟨v.contentHash, v⟩)])
        v.contentHash = Option.some ⟨v.contentHash, v⟩ := by
      rw [findByHash_append_of_none r _ _ hf]
      simp [Registry.findByHash]
    refine ⟨?_, ?_, ?_, ?_⟩
    · rw [h1]
      simp [Provenance.add, h2]
    · rw [h1]
      simp [Provenance.add, h2]
    · intro ex hex
      simp at hex
    · intro hnd
      rw [h1]
      simp only [List.map_append, List.map_cons, List.map_nil]
      refine List.Nodup.append hnd (List.nodup_singleton _) ?_
      intro a ha hb
      simp only [List.mem_singleton] at hb
      obtain ⟨p, hp, hpa⟩ := List.mem_map.mp ha
      exact findByHash_none_not_mem r v.contentHash hf p hp (by rw [hpa, hb])

theorem add_idempotent_canonical_witness :
    (([] : Registry).map Prod.fst).Nodup ∧
    (Provenance.add (Provenance.add ([] : Registry) (Value.int 7)).2
        (Value.int 7)).1 = (Provenance.add ([] : Registry) (Value.int 7)).1 ∧
    (((Provenance.add ([] : Registry) (Value.int 7)).2).map Prod.fst).Nodup :=
  ⟨by decide, (add_idempotent_canonical [] (Value.int 7)).1,
   (add_idempotent_canonical [] (Value.int 7)).2.2.2 (by decide)⟩

/-- Claim C1 (code bug): at a concrete in-scope tracked call where the
wrapped function itself succeeds, a failure to resolve the source statement
propagates to the caller of the wrapped call and the function's return
value is lost — the recording block (provenance.py lines 163-239) has no
exception handler around `extract_multiline_statement`/`ast.parse`. -/
theorem resolution_failure_aborts_wrapped_call :
    fCompute.call [Value.int 1] [] = Except.ok (Value.tuple [Value.int 1])
    ∧ wrapped envFail ["data"] fCompute framesMatch [Value.int 1] [] stActive =
        (Except.error ⟨"OSError: could not get source code"⟩, stActive) :=
  ⟨rfl, rfl⟩

/-- A seeded session state holding one registered identity, used by the
persistence witness. -/
def stSeed : ProvState :=
  ⟨true, "script.py", "<module>", 1, [], (Provenance.add [] (Value.int 7)).2⟩

/-- Claim C3: an ObjectIdentity record, once present in the registry, is
never destroyed during the session: every session operation — a wrapped
call, a (re)activation, a deactivation, or a direct registration —
preserves every existing registry entry. -/
theorem registry_entry_persists (st : ProvState) (op : SessionOp)
    (p : Nat × BuffaloObjectHash) (hp : p ∈ st.objects) :
    p ∈ (op.apply st).objects := by
  cases op with
  | callWrapped env selfInputs f frames args kwargs =>
    obtain ⟨ext, hext⟩ := wrapped_extends env selfInputs f frames args kwargs st
    show p ∈ (wrapped env selfInputs f frames args kwargs st).2.objects
    rw [hext]
    exact List.mem_append_left ext hp
  | doActivate frame => exact hp
  | doDeactivate => exact hp
  | doAdd v =>
    obtain ⟨ext, hext⟩ := add_extends st.objects v
    show p ∈ (Provenance.add st.objects v).2
    rw [hext]
    exact List.mem_append_left ext hp

theorem registry_entry_persists_witness :
    ((Value.int 7).contentHash,
      (⟨(Value.int 7).contentHash, Value.int 7⟩ : BuffaloObjectHash)) ∈
        stSeed.objects ∧
    ((Value.int 7).contentHash,
      (⟨(Value.int 7).contentHash, Value.int 7⟩ : BuffaloObjectHash)) ∈
      ((SessionOp.callWrapped envOk ["data"] fCompute framesMatch
          [Value.int 1] []).apply stSeed).objects :=
  ⟨by decide, registry_entry_persists stSeed
      (SessionOp.callWrapped envOk ["data"] fCompute framesMatch
        [Value.int 1] []) _ (by decide)⟩

/-! ### Output registration (claim C5) -/

theorem registerInputs_WF (selfInputs : List String)
    (d : List (String × Value)) :
    ∀ r : Registry, Registry.WF r →
      Registry.WF (registerInputs selfInputs d r).2.2 := by
  induction d with
  | nil => intro r h; simpa [registerInputs] using h
  | cons kv rest ih =>
    intro r h
    by_cases hk : kv.1 ∈ selfInputs
    · rw [registerInputs_cons_pos selfInputs kv rest r hk]
      show Registry.WF (registerInputs selfInputs rest (Provenance.add r kv.2).2).2.2
      exact ih _ (add_WF r kv.2 h)
    · rw [registerInputs_cons_neg selfInputs kv rest r hk]
      show Registry.WF (registerInputs selfInputs rest r).2.2
      exact ih r h

theorem registerOutputList_shape (xs : List Value) :
    ∀ (r : Registry) (start : Nat), Registry.WF r →
      (registerOutputList r start xs).1.map (fun p => (p.1, p.2.hash)) =
        (List.range' start xs.length).zip (xs.map Value.contentHash) := by
  induction xs with
  | nil => intro r start h; simp [registerOutputList]
  | cons v vs ih =>
    intro r start h
    show ((start, (Provenance.add r v).1) ::
        (registerOutputList (Provenance.add r v).2 (start + 1) vs).1).map
          (fun p => (p.1, p.2.hash)) = _
    rw [List.map_cons, ih (Provenance.add r v).2 (start + 1) (add_WF r v h),
      List.length_cons, List.range'_succ, List.map_cons, List.zip_cons_cons,
      add_hash_of_WF r v h]

/-- The spec's output-registration contract, as amended by the
counterexample below: a tuple return yields one identity per element under
positional indices `0, 1, ...` (each keyed by that element's content hash);
any other return value — including non-tuple sequences such as lists —
yields a single identity under index 0. -/
def specOutputRegistration (out : Value) : List (Nat × Nat) :=
  match out with
  | Value.tuple xs => (List.range xs.length).zip (xs.map Value.contentHash)
  | v => [(0, v.contentHash)]

theorem registerOutputs_shape (r : Registry) (out : Value)
    (h : Registry.WF r) :
    (registerOutputs r out).1.map (fun p => (p.1, p.2.hash)) =
      specOutputRegistration out := by
  cases out with
  | tuple xs =>
    show (registerOutputList r 0 xs).1.map (fun p => (p.1, p.2.hash)) = _
    rw [registerOutputList_shape xs r 0 h]
    simp [specOutputRegistration, List.range_eq_range']
  | int n =>
    simp [registerOutputs, specOutputRegistration,
      add_hash_of_WF r (Value.int n) h]
  | str s =>
    simp [registerOutputs, specOutputRegistration,
      add_hash_of_WF r (Value.str s) h]
  | pylist xs =>
    simp [registerOutputs, specOutputRegistration,
      add_hash_of_WF r (Value.pylist xs) h]
  | pyNone =>
    simp [registerOutputs, specOutputRegistration,
      add_hash_of_WF r Value.pyNone h]

/-! ### The in-scope recording path -/

theorem recordStep_appends (env : Env) (selfInputs : List String)
    (f : PyFunction) (args : List Value) (kwargs : List (String × Value))
    (st : ProvState) (lineno : Nat) (out : Value) (src : String) (tree : Ast)
    (hsrc : env.extract_multiline_statement lineno = Except.ok src)
    (hast : env.parse src = Except.ok tree)
    (hlen : ¬ f.paramNames.length < args.length) :
    recordStep env selfInputs f args kwargs st lineno out =
      (Except.ok out,
       { st with
          history := st.history ++
            [{ function := ⟨f.name, f.module, Option.none⟩
               input := (registerInputs selfInputs
                 (buildInputData f args kwargs) st.objects).1
               params := (registerInputs selfInputs
                 (buildInputData f args kwargs) st.objects).2.1
               output := (registerOutputs (registerInputs selfInputs
                 (buildInputData f args kwargs) st.objects).2.2 out).1
               arg_map := (f.paramNames.zip args).map Prod.fst
               kwarg_map := kwargs.map Prod.fst
               call_ast := tree
               code_statement := src }]
          objects := (registerOutputs (registerInputs selfInputs
            (buildInputData f args kwargs) st.objects).2.2 out).2 }) := by
  simp only [recordStep, hsrc, hast, if_neg hlen]

theorem wrapped_in_scope_eq (env : Env) (selfInputs : List String)
    (f : PyFunction) (frames : List FrameInfo) (args : List Value)
    (kwargs : List (String × Value)) (st : ProvState) (fr : FrameInfo)
    (out : Value) (hact : st.active = true)
    (hfr : findNamedFrame frames = Option.some fr)
    (hmatch : fr.filename = st.sourceFile ∧ fr.function = st.sourceName)
    (hout : f.call args kwargs = Except.ok out) :
    wrapped env selfInputs f frames args kwargs st =
      recordStep env selfInputs f args kwargs st fr.f_lineno out := by
  have hres : resolveCallerLineno st frames =
      Except.ok (Option.some fr.f_lineno) := by
    simp [resolveCallerLineno, hact, hfr, hmatch]
  unfold wrapped
  rw [hres, hout]
  simp [hact]

/-- Claim C5 counterexample: at a concrete in-scope tracked call whose
return value is a two-element Python list — a sequence but not a tuple —
the recorded step carries a single output identity at index 0 (the identity
of the whole list), not identities at indices 0 and 1 as the claim states
for tuple/sequence returns. -/
theorem sequence_output_single_identity :
    fListify.call [Value.int 1, Value.int 2] [] =
      Except.ok (Value.pylist [Value.int 1, Value.int 2])
    ∧ ((wrapped envOk ["data"] fListify framesMatch [Value.int 1, Value.int 2]
        [] stActive).2).history.map (fun s => s.output.map Prod.fst) = [[0]]
    ∧ ((wrapped envOk ["data"] fListify framesMatch [Value.int 1, Value.int 2]
        [] stActive).2).history.map (fun s => s.output.map Prod.fst) ≠ [[0, 1]] :=
  ⟨rfl, rfl, by decide⟩

/-- Claim C5 (amended): for every in-scope tracked call, if the return
value is a tuple then each element is registered as a separate output
identity under its positional index (a call returning `(a, b)` yields
output identities at indices 0 and 1); any other return value — including
non-tuple sequences such as lists — is registered as a single identity
under index 0. -/
theorem wrapped_output_registration (env : Env) (selfInputs : List String)
    (f : PyFunction) (frames : List FrameInfo) (args : List Value)
    (kwargs : List (String × Value)) (st : ProvState) (fr : FrameInfo)
    (out : Value) (src : String) (tree : Ast)
    (hact : st.active = true)
    (hfr : findNamedFrame frames = Option.some fr)
    (hmatch : fr.filename = st.sourceFile ∧ fr.function = st.sourceName)
    (hout : f.call args kwargs = Except.ok out)
    (hsrc : env.extract_multiline_statement fr.f_lineno = Except.ok src)
    (hast : env.parse src = Except.ok tree)
    (hlen : ¬ f.paramNames.length < args.length)
    (hwf : Registry.WF st.objects) :
    ∃ step : AnalysisStep,
      ((wrapped env selfInputs f frames args kwargs st).2).history =
        st.history ++ [step]
      ∧ step.output.map (fun p => (p.1, p.2.hash)) = specOutputRegistration out := by
  rw [wrapped_in_scope_eq env selfInputs f frames args kwargs st fr out
      hact hfr hmatch hout,
    recordStep_appends env selfInputs f args kwargs st fr.f_lineno out src tree
      hsrc hast hlen]
  refine ⟨_, rfl, ?_⟩
  exact registerOutputs_shape _ out
    (registerInputs_WF selfInputs (buildInputData f args kwargs) st.objects hwf)

theorem wrapped_output_registration_witness :
    ∃ step : AnalysisStep,
      ((wrapped envOk ["data"] fCompute framesMatch [Value.int 1, Value.int 2]
          [] stActive).2).history = stActive.history ++ [step]
      ∧ step.output.map (fun p => (p.1, p.2.hash)) =
          specOutputRegistration (Value.tuple [Value.int 1, Value.int 2]) :=
  wrapped_output_registration envOk ["data"] fCompute framesMatch
    [Value.int 1, Value.int 2] [] stActive ⟨"script.py", "<module>", 5⟩
    (Value.tuple [Value.int 1, Value.int 2]) "psd = compute(data)"
    ⟨"psd = compute(data)"⟩ rfl rfl (by decide) rfl rfl rfl (by decide) (by decide)

/-! ### Graph export (claim C7) -/

/-- Index of the last occurrence of `c` in `cs` (`str.rfind`), `-1` when
absent. -/
def rfindChar (cs : List Char) (c : Char) : Int :=
  (List.range cs.length).foldl
    (fun (acc : Int) (i : Nat) => if cs[i]? = some c then (i : Int) else acc)
    (-1)

/-- `str.lower()` on the ASCII extensions compared here, written over the
character list so that it evaluates by kernel reduction. -/
def strToLower (s : String) : String :=
  ⟨s.data.map Char.toLower⟩

/-- `os.path.splitext`, as called at provenance.py line 286 (CPython's
generic implementation with `/` as separator): the extension starts at the
last dot of the basename, provided some earlier character of the basename
is not a dot — so a dotfile such as `.html` has an empty extension. -/
def splitext (p : String) : String × String :=
  let cs := p.data
  let sepIndex := rfindChar cs '/'
  let dotIndex := rfindChar cs '.'
  if sepIndex < dotIndex then
    if (List.range cs.length).any (fun i =>
        decide (sepIndex + 1 ≤ (i : Int)) && decide ((i : Int) < dotIndex)
          && decide (cs[i]? ≠ some '.')) then
      (⟨cs.take dotIndex.toNat⟩, ⟨cs.drop dotIndex.toNat⟩)
    else (p, "")
  else (p, "")

/-- Modelled from the spec: `graph.py` is not part of the inspected source.
The spec's Lineage Graph Builder consumes History steps one at a time via
`add_step`; the graph is determined by the sequence of consumed steps. -/
structure BuffaloProvenanceGraph where
  steps : List AnalysisStep
deriving DecidableEq

/-- Modelled from the spec: `add_step` consumes one AnalysisStep into the
graph. -/
def BuffaloProvenanceGraph.add_step (g : BuffaloProvenanceGraph)
    (step : AnalysisStep) : BuffaloProvenanceGraph :=
  ⟨g.steps ++ [step]⟩

/-- Modelled from the spec: the serialization performed by
`graph.to_pyvis(filename, show=show)` — the graph content, the destination
path and the show flag. -/
structure SavedGraph where
  graph : BuffaloProvenanceGraph
  filename : String
  showFlag : Bool
deriving DecidableEq

/-- `Provenance.save_graph` (provenance.py lines 270-294): split the
extension; unless it lowercases to `.html`/`.htm`, raise ValueError before
any graph building or filesystem access; otherwise build the graph from
every step in History in order and serialize it to `filename`. -/
def Provenance.save_graph (st : ProvState) (filename : String)
    (showFlag : Bool) : Except PyError SavedGraph :=
  if ¬ strToLower (splitext filename).2 ∈ [".html", ".htm"] then
    Except.error ⟨"Filename must have HTML extension (.html, .htm)!"⟩
  else
    Except.ok ⟨st.history.foldl BuffaloProvenanceGraph.add_step ⟨[]⟩,
      filename, showFlag⟩

/-- The interface function `save_graph` (provenance.py lines 371-383),
delegating to `Provenance.save_graph`. -/
def save_graph (st : ProvState) (filename : String) (showFlag : Bool) :
    Except PyError SavedGraph :=
  Provenance.save_graph st filename showFlag

theorem foldl_add_step_eq (hist : List AnalysisStep) :
    ∀ g : BuffaloProvenanceGraph,
      hist.foldl BuffaloProvenanceGraph.add_step g = ⟨g.steps ++ hist⟩ := by
  induction hist with
  | nil => intro g; cases g; simp
  | cons s rest ih =>
    intro g
    rw [List.foldl_cons, ih]
    simp [BuffaloProvenanceGraph.add_step]

/-- Claim C7: `save_graph` raises ValueError — before any graph building or
filesystem access — for every path whose extension does not lowercase to
`.html` or `.htm`; for a conforming path it builds the graph from every
step in History, in order, and serializes it to that path. -/
theorem save_graph_validation (st : ProvState) (filename : String)
    (showFlag : Bool) :
    (¬ strToLower (splitext filename).2 ∈ [".html", ".htm"] →
      save_graph st filename showFlag =
        Except.error ⟨"Filename must have HTML extension (.html, .htm)!"⟩)
    ∧ (strToLower (splitext filename).2 ∈ [".html", ".htm"] →
      save_graph st filename showFlag =
        Except.ok ⟨⟨st.history⟩, filename, showFlag⟩) := by
  constructor
  · intro h
    simp [save_graph, Provenance.save_graph, h]
  · intro h
    simp [save_graph, Provenance.save_graph, h, foldl_add_step_eq]

theorem save_graph_validation_witness :
    (¬ strToLower (splitext "trace.txt").2 ∈ [".html", ".htm"] ∧
      save_graph stActive "trace.txt" false =
        Except.error ⟨"Filename must have HTML extension (.html, .htm)!"⟩)
    ∧ (strToLower (splitext "trace.HTML").2 ∈ [".html", ".htm"] ∧
      save_graph stActive "trace.HTML" false =
        Except.ok ⟨⟨stActive.history⟩, "trace.HTML", false⟩) :=
  ⟨⟨by decide, (save_graph_validation stActive "trace.txt" false).1 (by decide)⟩,
   ⟨by decide, (save_graph_validation stActive "trace.HTML" false).2 (by decide)⟩⟩

/-! ### Decorator metadata (claim C10) -/

/-- Claim C10: the decorator preserves the wrapped callable's identity
metadata (`functools.wraps` copies `__name__`, `__module__` and the
docstring onto the wrapper), and the FunctionDefinition recorded for every
in-scope call carries the original function's name and originating module
(and no version), not the wrapper's. -/
theorem decorator_preserves_metadata (selfInputs : List String)
    (f : PyFunction) :
    ((Provenance.call selfInputs f).name = f.name
      ∧ (Provenance.call selfInputs f).module = f.module
      ∧ (Provenance.call selfInputs f).doc = f.doc)
    ∧ (∀ (env : Env) (frames : List FrameInfo) (args : List Value)
        (kwargs : List (String × Value)) (st : ProvState) (fr : FrameInfo)
        (out : Value) (src : String) (tree : Ast),
        st.active = true →
        findNamedFrame frames = Option.some fr →
        fr.filename = st.sourceFile ∧ fr.function = st.sourceName →
        f.call args kwargs = Except.ok out →
        env.extract_multiline_statement fr.f_lineno = Except.ok src →
        env.parse src = Except.ok tree →
        ¬ f.paramNames.length < args.length →
        ∃ step : AnalysisStep,
          (((Provenance.call selfInputs f).run env frames args kwargs
              st).2).history = st.history ++ [step]
          ∧ step.function = ⟨f.name, f.module, Option.none⟩) := by
  refine ⟨⟨rfl, rfl, rfl⟩, ?_⟩
  intro env frames args kwargs st fr out src tree hact hfr hmatch hout hsrc
    hast hlen
  show ∃ step : AnalysisStep,
    ((wrapped env selfInputs f frames args kwargs st).2).history =
      st.history ++ [step] ∧ step.function = ⟨f.name, f.module, Option.none⟩
  rw [wrapped_in_scope_eq env selfInputs f frames args kwargs st fr out
      hact hfr hmatch hout,
    recordStep_appends env selfInputs f args kwargs st fr.f_lineno out src
      tree hsrc hast hlen]
  exact ⟨_, rfl, rfl⟩

theorem decorator_preserves_metadata_witness :
    ((Provenance.call ["data"] fCompute).name = fCompute.name
      ∧ (Provenance.call ["data"] fCompute).module = fCompute.module
      ∧ (Provenance.call ["data"] fCompute).doc = fCompute.doc)
    ∧ ∃ step : AnalysisStep,
        (((Provenance.call ["data"] fCompute).run envOk framesMatch
            [Value.int 1, Value.int 2] [] stActive).2).history =
          stActive.history ++ [step]
        ∧ step.function = ⟨fCompute.name, fCompute.module, Option.none⟩ :=
  ⟨(decorator_preserves_metadata ["data"] fCompute).1,
   (decorator_preserves_metadata ["data"] fCompute).2 envOk framesMatch
     [Value.int 1, Value.int 2] [] stActive ⟨"script.py", "<module>", 5⟩
     (Value.tuple [Value.int 1, Value.int 2]) "psd = compute(data)"
     ⟨"psd = compute(data)"⟩ rfl rfl (by decide) rfl rfl rfl (by decide)⟩
